import Mathlib

/-!
Verification of the circuitmcp Circuit model and simulation-translation
engine, shallowly embedded from the Python sources
(circuitmcp/circuit.py and circuitmcp/manager.py).

Numeric values are modelled by the rationals; Python dictionaries whose
insertion order matters are modelled by association lists.  The external
SPICE solver is an oracle parameter; the two transcendental scalar
operations applied to AC solver output (complex magnitude and the phase
angle atan2 converted to degrees) are modelled by uninterpreted
constructors, so every definition stays executable.
-/

/-- Parameter values stored in a component parameters dictionary: a
number or a string. -/
inductive PVal where
  | num (q : ℚ)
  | str (s : String)
deriving Repr, DecidableEq

/-- A parameters dictionary, in insertion order. -/
abbrev Params := List (String × PVal)

/-- Dictionary lookup on an association list (Python d.get(k)). -/
def alookup {α : Type} : List (String × α) → String → Option α
  | [], _ => none
  | (k', v) :: rest, k => if k' = k then some v else alookup rest k

/-- Dictionary write d[k] = v: replaces the value of an existing key in
place, otherwise appends the new key at the end, matching Python dict
insertion-order semantics. -/
def aset {α : Type} : List (String × α) → String → α → List (String × α)
  | [], k, v => [(k, v)]
  | (k', v') :: rest, k, v =>
      if k' = k then (k, v) :: rest else (k', v') :: aset rest k v

/-- Python str.upper: uppercase every character. -/
def strUpper (s : String) : String := ⟨s.data.map Char.toUpper⟩

/-- Python str.lower: lowercase every character. -/
def strLower (s : String) : String := ⟨s.data.map Char.toLower⟩

/-- Python truthiness of a parameter value: nonzero number or non-empty
string. -/
def pvalTruthy : PVal → Bool
  | .num q => q ≠ 0
  | .str s => s ≠ ""

/-- Python expression (value or d) for an optional numeric value: the
value when present and nonzero, otherwise the default. -/
def pyOr (value : Option ℚ) (d : ℚ) : ℚ :=
  match value with
  | some v => if v = 0 then d else v
  | none => d

/-- One circuit element, as stored in Circuit.components by
add_component: the generated name, the uppercased type tag, the node
list, and the optional value and parameters entries (the dictionary keys
value and parameters are only present when not None). -/
structure Component where
  name : String
  type : String
  nodes : List String
  value : Option ℚ
  params : Option Params
deriving Repr, DecidableEq

/-- One entry of Circuit.history: the superseded version number and a
deep copy of the superseded component list. -/
structure HistoryEntry where
  version : ℕ
  components : List Component
deriving Repr, DecidableEq

/-- The Circuit aggregate: id, display name, version counter, ordered
component list, history of superseded snapshots, and the per-type
next-identifier counters (_next_ids). -/
structure Circuit where
  id : ℕ
  name : String
  version : ℕ
  components : List Component
  history : List HistoryEntry
  next_ids : List (String × ℕ)
deriving Repr, DecidableEq

/-- The per-type counters a fresh circuit starts with. -/
def initialNextIds : List (String × ℕ) :=
  [("R", 1), ("C", 1), ("L", 1), ("V", 1), ("I", 1),
   ("D", 1), ("Q", 1), ("M", 1), ("X", 1), ("U", 1)]

/-- Python expression (name or default) on an optional string: the
string when present and non-empty, otherwise the default. -/
def pyOrStr (s : Option String) (d : String) : String :=
  match s with
  | some s => if s = "" then d else s
  | none => d

/-- Circuit.__init__: version 1, no components, no history, the fixed
initial counters, and the display name defaulting to Circuit followed by
the id. -/
def Circuit.new (circuit_id : ℕ) (name : Option String) : Circuit :=
  { id := circuit_id
    name := pyOrStr name ("Circuit " ++ Nat.repr circuit_id)
    version := 1
    components := []
    history := []
    next_ids := initialNextIds }

/-- Circuit.add_component: uppercase the type, read the per-type counter
(initializing an unknown type at 1), build the generated name from type
and counter, store the component record, append it, advance the counter
and increment the version.  Returns the created record with the new
circuit state. -/
def add_component (c : Circuit) (component_type : String)
    (nodes : List String) (value : Option ℚ) (parameters : Option Params) :
    Component × Circuit :=
  let t := strUpper component_type
  let comp_id := (alookup c.next_ids t).getD 1
  let comp : Component :=
    { name := t ++ Nat.repr comp_id
      type := t
      nodes := nodes
      value := value
      params := parameters }
  (comp,
    { c with
        components := c.components ++ [comp]
        version := c.version + 1
        next_ids := aset c.next_ids t (comp_id + 1) })

/-- Removal of the first component with the given name from a list;
none when no component matches. -/
def removeFirst : List Component → String → Option (List Component)
  | [], _ => none
  | comp :: rest, n =>
      if comp.name = n then some rest
      else (removeFirst rest n).map (comp :: ·)

/-- Circuit.remove_component: remove the first component with the given
name and increment the version, returning true; when no component
matches, return false and leave the circuit untouched. -/
def remove_component (c : Circuit) (component_name : String) :
    Bool × Circuit :=
  match removeFirst c.components component_name with
  | some comps =>
      (true, { c with components := comps, version := c.version + 1 })
  | none => (false, c)

/-- The fields update_components extracts from each incoming component
dictionary: the required type and nodes keys and the optional value and
parameters keys. -/
structure CompSpec where
  type : String
  nodes : List String
  value : Option ℚ
  params : Option Params
deriving Repr, DecidableEq

/-- Circuit.update_components: snapshot the current version and a deep
copy of the components into history while incrementing the version, then
clear the component list and re-add every entry through add_component. -/
def update_components (c : Circuit) (new_components : List CompSpec) :
    Circuit :=
  let c1 : Circuit :=
    { c with
        history := c.history ++ [⟨c.version, c.components⟩]
        version := c.version + 1
        components := [] }
  new_components.foldl
    (fun cc spec => (add_component cc spec.type spec.nodes spec.value spec.params).2)
    c1

/-- The dictionary produced by Circuit.to_dict: id, name, version and a
deep copy of the component list. -/
structure CircuitDict where
  id : ℕ
  name : String
  version : ℕ
  components : List Component
deriving Repr, DecidableEq

/-- Circuit.to_dict. -/
def to_dict (c : Circuit) : CircuitDict :=
  ⟨c.id, c.name, c.version, c.components⟩

/-- One mutating operation on a circuit, for reasoning about operation
sequences: the three structural mutations plus renaming. -/
inductive Op where
  | add (component_type : String) (nodes : List String)
        (value : Option ℚ) (parameters : Option Params)
  | remove (component_name : String)
  | update (new_components : List CompSpec)
  | rename (new_name : String)
deriving Repr, DecidableEq

/-- Apply one operation to a circuit. -/
def applyOp (c : Circuit) : Op → Circuit
  | .add t nodes v p => (add_component c t nodes v p).2
  | .remove n => (remove_component c n).2
  | .update specs => update_components c specs
  | .rename s => { c with name := s }

/-- Apply a sequence of operations in order. -/
def runOps (c : Circuit) (ops : List Op) : Circuit :=
  ops.foldl applyOp c

/-- The fixed component-type tag set of the data model. -/
def tagList : List String :=
  ["R", "C", "L", "V", "I", "D", "Q", "M", "X", "U"]

/-- The per-type counter value add_component would use next for the
given (already uppercased) type tag. -/
def counterOf (c : Circuit) (t : String) : ℕ :=
  (alookup c.next_ids t).getD 1

/-- An operation usable in the add/remove sequences of the name-reuse
property: an addition whose uppercased type lies in the fixed tag set,
or a removal. -/
def opAddRemoveTagged : Op → Bool
  | .add t _ _ _ => tagList.contains (strUpper t)
  | .remove _ => true
  | .update _ => false
  | .rename _ => false

/-- Arguments of one add_component call sharing a fixed type. -/
structure AddArgs where
  nodes : List String
  value : Option ℚ
  params : Option Params
deriving Repr, DecidableEq

/-- Repeatedly add components of one fixed type. -/
def addMany (c : Circuit) (t : String) (js : List AddArgs) : Circuit :=
  js.foldl (fun cc a => (add_component cc t a.nodes a.value a.params).2) c

/-- A node handed to the solver: either the canonical ground reference
of the solver netlist, or an opaque node identifier. -/
inductive NodeRef where
  | gnd
  | plain (s : String)
deriving Repr, DecidableEq

/-- The node normalization applied inside Circuit.simulate: a non-empty
identifier whose lowercase form is 0, gnd or ground becomes the
canonical ground reference, every other identifier passes through
unchanged. -/
def normalize_node (node : String) : NodeRef :=
  if node ≠ "" ∧ (strLower node = "0" ∨ strLower node = "gnd" ∨ strLower node = "ground")
  then .gnd else .plain node

/-- A behavioral-source expression, structured form of the expression
strings the translator builds for UVX components. -/
inductive BExpr where
  | comparatorExpr (plusNode minusNode : NodeRef) (high low : PVal)
  | adcExpr (inNode : NodeRef) (bits ref : PVal)
  | dacExpr (inNode : NodeRef) (ref : PVal)
deriving Repr, DecidableEq

/-- One solver-primitive instruction emitted by the translator, one
constructor per PySpice element or model call the code uses. -/
inductive Instr where
  | resistor (name : String) (n1 n2 : NodeRef) (ohms : ℚ)
  | capacitor (name : String) (n1 n2 : NodeRef) (farads : ℚ)
  | inductor (name : String) (n1 n2 : NodeRef) (henries : ℚ)
  | vdc (name : String) (n1 n2 : NodeRef) (volts : ℚ)
  | vsin (name : String) (n1 n2 : NodeRef) (amplitude frequency offset : PVal)
  | vpulse (name : String) (n1 n2 : NodeRef)
      (initial pulsed delay rise_time fall_time pulse_width period : PVal)
  | isource (name : String) (n1 n2 : NodeRef) (amps : ℚ)
  | modelDiode (model : PVal) (isat n vj : PVal)
  | diode (name : String) (n1 n2 : NodeRef) (model : PVal)
  | modelNpn (model : PVal) (bf : PVal)
  | bjt (name : String) (collector base emitter : NodeRef) (model : PVal)
  | vcvs (name : String) (outPlus outMinus ctrlPlus ctrlMinus : NodeRef) (gain : PVal)
  | bsource (name : String) (n1 n2 : NodeRef) (expr : BExpr)
deriving Repr, DecidableEq

/-- Errors Circuit.simulate raises (all ValueError in the code): a
component that failed to translate, or a failure wrapped by the
Simulation failed handler. -/
inductive FailReason where
  | missingDcParams
  | missingTransientParams
  | unsupportedAnalysis (kind : String)
  | solverFailure (msg : String)
deriving Repr, DecidableEq

/-- The error raised by Circuit.simulate. -/
inductive SimError where
  | componentError (name : String)
  | simulationFailed (reason : FailReason)
deriving Repr, DecidableEq

/-- Whether an error belongs to the validation category of the error
taxonomy (malformed component or malformed analysis request), as opposed
to a solver-side simulation failure. -/
def isValidationErr : SimError → Bool
  | .componentError _ => true
  | .simulationFailed r =>
      match r with
      | .solverFailure _ => false
      | _ => true

/-- Translate one component into solver instructions, threading the set
of model names already declared on the netlist; mirrors the per-type
branches of the component loop in Circuit.simulate.  Any failure inside
a branch (a missing required value or too few nodes for the accessed
indices) yields none, which the single exception handler of the loop
turns into a componentError naming the component. -/
def translateComponentCore (declared : List PVal) (comp : Component) :
    Option (List Instr × List PVal) :=
  let ns := comp.nodes.map normalize_node
  let p := (comp.params).getD []
  if comp.type = "R" then
    match ns, comp.value with
    | n1 :: n2 :: _, some v => some ([.resistor comp.name n1 n2 v], declared)
    | _, _ => none
  else if comp.type = "C" then
    match ns, comp.value with
    | n1 :: n2 :: _, some v => some ([.capacitor comp.name n1 n2 v], declared)
    | _, _ => none
  else if comp.type = "L" then
    match ns, comp.value with
    | n1 :: n2 :: _, some v => some ([.inductor comp.name n1 n2 v], declared)
    | _, _ => none
  else if comp.type = "V" then
    if p ≠ [] ∧ (alookup p "type").isSome then
      if alookup p "type" = some (.str "sine") then
        match ns with
        | n1 :: n2 :: _ =>
            some ([.vsin comp.name n1 n2
                   ((alookup p "amplitude").getD (.num (pyOr comp.value 1)))
                   ((alookup p "frequency").getD (.num 1000))
                   ((alookup p "offset").getD (.num 0))], declared)
        | _ => none
      else if alookup p "type" = some (.str "pulse") then
        match ns with
        | n1 :: n2 :: _ =>
            some ([.vpulse comp.name n1 n2
                   ((alookup p "initial").getD (.num 0))
                   ((alookup p "pulsed").getD (.num (pyOr comp.value 5)))
                   ((alookup p "delay").getD (.num 0))
                   ((alookup p "rise_time").getD (.num (1 / 1000000000)))
                   ((alookup p "fall_time").getD (.num (1 / 1000000000)))
                   ((alookup p "pulse_width").getD (.num (1 / 1000)))
                   ((alookup p "period").getD (.num (2 / 1000)))], declared)
        | _ => none
      else
        match ns, comp.value with
        | n1 :: n2 :: _, some v => some ([.vdc comp.name n1 n2 v], declared)
        | _, _ => none
    else
      match ns, comp.value with
      | n1 :: n2 :: _, some v => some ([.vdc comp.name n1 n2 v], declared)
      | _, _ => none
  else if comp.type = "I" then
    match ns, comp.value with
    | n1 :: n2 :: _, some v => some ([.isource comp.name n1 n2 v], declared)
    | _, _ => none
  else if comp.type = "D" then
    let model := (alookup p "model").getD (.str "default_diode")
    let decl :=
      if declared.contains model then ([], declared)
      else ([Instr.modelDiode model
               ((alookup p "is").getD (.num (1 / 100000000000000)))
               ((alookup p "n").getD (.num 1))
               ((alookup p "vj").getD (.num 1))], declared ++ [model])
    match ns with
    | n1 :: n2 :: _ => some (decl.1 ++ [.diode comp.name n1 n2 model], decl.2)
    | _ => none
  else if comp.type = "Q" then
    let model := (alookup p "model").getD (.str "default_npn")
    let decl :=
      if declared.contains model then ([], declared)
      else ([Instr.modelNpn model ((alookup p "bf").getD (.num 100))],
            declared ++ [model])
    match ns with
    | n1 :: n2 :: n3 :: _ => some (decl.1 ++ [.bjt comp.name n1 n2 n3 model], decl.2)
    | _ => none
  else if comp.type = "U" then
    let uvx := (alookup p "uvx_type").getD (.str "opamp")
    if uvx = .str "opamp" then
      let gain := (alookup p "gain").getD (.num 1000000)
      match ns with
      | n1 :: n2 :: n3 :: _ =>
          some ([.resistor (comp.name ++ "_in_p") n3
                  (.plain ("int_" ++ comp.name ++ "_1")) 1000000000,
                .resistor (comp.name ++ "_in_n") n2
                  (.plain ("int_" ++ comp.name ++ "_2")) 1000000000,
                .vcvs comp.name n1 .gnd
                  (.plain ("int_" ++ comp.name ++ "_1"))
                  (.plain ("int_" ++ comp.name ++ "_2")) gain], declared)
      | _ => some ([], declared)
    else if uvx = .str "comparator" then
      match ns with
      | n1 :: n2 :: n3 :: _ =>
          some ([.bsource comp.name n1 .gnd
                 (.comparatorExpr n3 n2 ((alookup p "high").getD (.num 5))
                   ((alookup p "low").getD (.num 0)))], declared)
      | _ => none
    else if uvx = .str "adc" then
      match ns with
      | n1 :: n2 :: _ =>
          some ([.bsource comp.name n1 .gnd
                 (.adcExpr n2 ((alookup p "bits").getD (.num 8))
                   ((alookup p "reference").getD (.num 5)))], declared)
      | _ => none
    else if uvx = .str "dac" then
      match ns with
      | n1 :: n2 :: _ =>
          some ([.bsource comp.name n1 .gnd
                 (.dacExpr n2 ((alookup p "reference").getD (.num 5)))], declared)
      | _ => none
    else some ([], declared)
  else some ([], declared)

/-- Translate one component: any failure inside the per-type branch is
reported as a componentError carrying the component name, matching the
try block wrapping the component loop of Circuit.simulate. -/
def translateComponent (declared : List PVal) (comp : Component) :
    Except SimError (List Instr × List PVal) :=
  match translateComponentCore declared comp with
  | some r => .ok r
  | none => .error (.componentError comp.name)

/-- Translate a component list in order, concatenating the emitted
instructions; the first failing component aborts the whole pass. -/
def translateList (declared : List PVal) :
    List Component → Except SimError (List Instr × List PVal)
  | [] => .ok ([], declared)
  | comp :: rest =>
      match translateComponent declared comp with
      | .error e => .error e
      | .ok (instrs, declared') =>
          match translateList declared' rest with
          | .error e => .error e
          | .ok (instrs', declared'') => .ok (instrs ++ instrs', declared'')

/-- A netlist handed to the solver: the title (the circuit display name)
and the ordered instructions. -/
structure SpiceNetlist where
  title : String
  instrs : List Instr
deriving Repr, DecidableEq

/-- Build the full solver netlist from a circuit name and components. -/
def translateAll (title : String) (comps : List Component) :
    Except SimError SpiceNetlist :=
  match translateList [] comps with
  | .error e => .error e
  | .ok r => .ok ⟨title, r.1⟩

/-- Raw operating-point solver output: node voltages and branch
currents keyed by name. -/
structure OpOutput where
  nodes : List (String × ℚ)
  branches : List (String × ℚ)
deriving Repr, DecidableEq

/-- Raw DC-sweep solver output. -/
structure DcOutput where
  sweep : List ℚ
  nodes : List (String × List ℚ)
  branches : List (String × List ℚ)
deriving Repr, DecidableEq

/-- Raw AC solver output: complex values as pairs of real and imaginary
parts. -/
structure AcOutput where
  frequency : List ℚ
  nodes : List (String × List (ℚ × ℚ))
  branches : List (String × List (ℚ × ℚ))
deriving Repr, DecidableEq

/-- Raw transient solver output. -/
structure TrOutput where
  time : List ℚ
  nodes : List (String × List ℚ)
  branches : List (String × List ℚ)
deriving Repr, DecidableEq

/-- A scalar produced by normalizing one complex AC value: cabs re im
stands for the magnitude of the complex number re plus im times i, and
atan2Deg re im stands for atan2 of im and re converted to degrees.  Both
are kept as uninterpreted constructors applied to the exact solver value
so that results stay executable. -/
inductive AcScalar where
  | cabs (re im : ℚ)
  | atan2Deg (re im : ℚ)
deriving Repr, DecidableEq

/-- The magnitude and phase record built for one AC node or branch: a
dictionary with the key magnitude holding the magnitudes and the key
phase holding the phases in degrees, in solver order. -/
def acEntry (vs : List (ℚ × ℚ)) : List (String × List AcScalar) :=
  [("magnitude", vs.map (fun v => AcScalar.cabs v.1 v.2)),
   ("phase", vs.map (fun v => AcScalar.atan2Deg v.1 v.2))]

/-- Drop entries whose name is a ground name (0 or gnd), keeping the
remaining entries in order; this is the exclusion applied to node
results of every analysis. -/
def filterGround {α : Type} (l : List (String × α)) : List (String × α) :=
  l.filter (fun q => decide (¬(q.1 = "0" ∨ q.1 = "gnd")))

/-- Build the AC nodes result: ground-named nodes are skipped, every
other node maps to its magnitude and phase record. -/
def normalizeAcNodes (ns : List (String × List (ℚ × ℚ))) :
    List (String × List (String × List AcScalar)) :=
  ns.filterMap (fun q =>
    if q.1 = "0" ∨ q.1 = "gnd" then none else some (q.1, acEntry q.2))

/-- Build the AC branches result: every branch maps to its magnitude
and phase record. -/
def normalizeAcBranches (bs : List (String × List (ℚ × ℚ))) :
    List (String × List (String × List AcScalar)) :=
  bs.map (fun q => (q.1, acEntry q.2))

/-- The normalized result dictionary Circuit.simulate returns, one shape
per analysis kind. -/
inductive SimResults where
  | op (nodes : List (String × ℚ)) (branches : List (String × ℚ))
  | dc (sweepSource : PVal) (sweepValues : List ℚ)
      (nodes : List (String × List ℚ)) (branches : List (String × List ℚ))
  | ac (frequencyValues : List ℚ)
      (nodes : List (String × List (String × List AcScalar)))
      (branches : List (String × List (String × List AcScalar)))
  | transient (time : List ℚ)
      (nodes : List (String × List ℚ)) (branches : List (String × List ℚ))
deriving Repr, DecidableEq

/-- One analysis directive handed to the external solver, carrying the
parameters the dispatcher passes. -/
inductive AnalysisCall where
  | op
  | dc (source start stop step : PVal)
  | ac (start_frequency stop_frequency points variation : PVal)
  | transient (step_time end_time : PVal)
deriving Repr, DecidableEq

/-- The external solver as an oracle: one function per analysis mode,
taking the netlist and the analysis parameters and returning raw output
or a solver-side failure message. -/
structure Solver where
  op_analysis : SpiceNetlist → Except String OpOutput
  dc_analysis : SpiceNetlist → PVal → PVal → PVal → PVal → Except String DcOutput
  ac_analysis : SpiceNetlist → PVal → PVal → PVal → PVal → Except String AcOutput
  transient_analysis : SpiceNetlist → PVal → PVal → Except String TrOutput

/-- The analysis dispatcher and result normalizer of Circuit.simulate:
selects the branch matching the lowercased analysis kind, validates the
required parameters, invokes the solver and reshapes the raw output.
Returns the list of solver analysis invocations actually made together
with the result or error. -/
def dispatch (nl : SpiceNetlist) (kind : String) (sp : Params) (s : Solver) :
    List AnalysisCall × Except SimError SimResults :=
  if kind = "operating_point" then
    match s.op_analysis nl with
    | .ok out => ([.op], .ok (.op (filterGround out.nodes) out.branches))
    | .error msg => ([.op], .error (.simulationFailed (.solverFailure msg)))
  else if kind = "dc" then
    match alookup sp "source", alookup sp "start",
          alookup sp "stop", alookup sp "step" with
    | some src, some start, some stop, some step =>
        if pvalTruthy src then
          match s.dc_analysis nl src start stop step with
          | .ok out =>
              ([.dc src start stop step],
               .ok (.dc src out.sweep (filterGround out.nodes) out.branches))
          | .error msg =>
              ([.dc src start stop step],
               .error (.simulationFailed (.solverFailure msg)))
        else ([], .error (.simulationFailed .missingDcParams))
    | _, _, _, _ => ([], .error (.simulationFailed .missingDcParams))
  else if kind = "ac" then
    let startF := (alookup sp "start_frequency").getD (.num 1)
    let stopF := (alookup sp "stop_frequency").getD (.num 1000000)
    let pts := (alookup sp "points").getD (.num 10)
    let varia := (alookup sp "variation").getD (.str "dec")
    match s.ac_analysis nl startF stopF pts varia with
    | .ok out =>
        ([.ac startF stopF pts varia],
         .ok (.ac out.frequency (normalizeAcNodes out.nodes)
               (normalizeAcBranches out.branches)))
    | .error msg =>
        ([.ac startF stopF pts varia],
         .error (.simulationFailed (.solverFailure msg)))
  else if kind = "transient" then
    match alookup sp "step_time", alookup sp "end_time" with
    | some st, some et =>
        match s.transient_analysis nl st et with
        | .ok out =>
            ([.transient st et],
             .ok (.transient out.time (filterGround out.nodes) out.branches))
        | .error msg =>
            ([.transient st et],
             .error (.simulationFailed (.solverFailure msg)))
    | _, _ => ([], .error (.simulationFailed .missingTransientParams))
  else ([], .error (.simulationFailed (.unsupportedAnalysis kind)))

/-- The observable outcome of one Circuit.simulate call: the circuit
state when the call returns or raises, the solver analysis invocations
made, and the result or error. -/
structure SimOutcome where
  circuit : Circuit
  calls : List AnalysisCall
  result : Except SimError SimResults
deriving Repr

/-- Circuit.simulate: default the parameters, translate the live
component list into a netlist (aborting on the first bad component),
then dispatch on the lowercased analysis kind.  The circuit state is
never written. -/
def simulate (c : Circuit) (analysis : String) (sim_params : Option Params)
    (s : Solver) : SimOutcome :=
  match translateAll c.name c.components with
  | .error e => ⟨c, [], .error e⟩
  | .ok nl =>
      let r := dispatch nl (strLower analysis) (sim_params.getD []) s
      ⟨c, r.1, r.2⟩

/-- A concrete solver oracle used to instantiate witness statements. -/
def witnessSolver : Solver :=
  { op_analysis := fun _ => .ok ⟨[("1", 5), ("0", 0)], [("v1", 1)]⟩
    dc_analysis := fun _ _ _ _ _ => .ok ⟨[0, 1], [("1", [0, 1])], []⟩
    ac_analysis := fun _ _ _ _ _ =>
      .ok ⟨[1, 10], [("1", [(3, 4), (1, 0)]), ("0", [(0, 0), (0, 0)])], [("v1", [(1, 2), (2, 1)])]⟩
    transient_analysis := fun _ _ _ => .ok ⟨[0, 1], [("1", [0, 5])], []⟩ }

/-- The in-memory registry state of CircuitManager: the circuits keyed
by id in insertion order, and the next id to assign. -/
structure ManagerState where
  circuits : List (ℕ × Circuit)
  next_id : ℕ
deriving Repr

/-- The persisted form written by CircuitManager._save_to_disk: the next
id and each circuit converted through to_dict. -/
structure SavedState where
  next_id : ℕ
  circuits : List (ℕ × CircuitDict)
deriving Repr, DecidableEq

/-- CircuitManager._save_to_disk. -/
def save_to_disk (m : ManagerState) : SavedState :=
  ⟨m.next_id, m.circuits.map (fun q => (q.1, to_dict q.2))⟩

/-- Reconstruction of one circuit by CircuitManager._load_from_disk:
construct a fresh Circuit with the stored id and name, assign the stored
version, then re-add every stored component through add_component. -/
def loadCircuitData (cid : ℕ) (cd : CircuitDict) : Circuit :=
  let c0 := Circuit.new cid (some cd.name)
  let c1 := { c0 with version := cd.version }
  cd.components.foldl
    (fun cc comp => (add_component cc comp.type comp.nodes comp.value comp.params).2)
    c1

/-- CircuitManager._load_from_disk: restore the next id and reconstruct
every stored circuit. -/
def load_from_disk (data : SavedState) : ManagerState :=
  ⟨data.circuits.map (fun q => (q.1, loadCircuitData q.1 q.2)), data.next_id⟩

/-- Counter invariant: every stored per-type counter is at least 1. -/
def CtrInv (c : Circuit) : Prop :=
  ∀ t m, alookup c.next_ids t = some m → 1 ≤ m

/-- A name of the generated shape for a fixed-tag type, whose sequence
number lies strictly below the current per-type counter. -/
def GoodName (c : Circuit) (nm : String) : Prop :=
  ∃ t k, t ∈ tagList ∧ nm = t ++ Nat.repr k ∧ 1 ≤ k ∧ k < counterOf c t

/-- Invariant of circuits reachable by tag-typed additions and
removals: counters are positive and every live component carries a
generated tag name below the corresponding counter. -/
def CircuitInv (c : Circuit) : Prop :=
  CtrInv c ∧ ∀ comp ∈ c.components, GoodName c comp.name

/-- Example circuit saved by the persistence round-trip analysis: a
fresh circuit with one resistor added. -/
def savedExampleA : Circuit :=
  (add_component (Circuit.new 1 none) "R" ["1", "2"] (some 1000) none).2

/-- Example circuit saved by the persistence round-trip analysis: two
resistors added and the first removed, so that the surviving component
is named R2. -/
def savedExampleB : Circuit :=
  (remove_component
    (add_component
      (add_component (Circuit.new 2 none) "R" ["1", "2"] (some 1000) none).2
      "R" ["2", "3"] (some 500) none).2
    "R1").2

theorem alookup_aset_self {α : Type} (l : List (String × α)) (k : String) (v : α) :
    alookup (aset l k v) k = some v := by
  induction l with
  | nil => simp [aset, alookup]
  | cons p rest ih =>
      obtain ⟨k', v'⟩ := p
      by_cases h : k' = k <;> simp [aset, alookup, h, ih]

theorem alookup_aset_ne {α : Type} (l : List (String × α)) (k k' : String) (v : α)
    (h : k' ≠ k) : alookup (aset l k v) k' = alookup l k' := by
  induction l with
  | nil => simp [aset, alookup, Ne.symm h]
  | cons p rest ih =>
      obtain ⟨k'', v''⟩ := p
      by_cases hk : k'' = k
      · subst hk
        simp [aset, alookup, Ne.symm h]
      · simp [aset, alookup, hk, ih]

theorem add_component_version (c : Circuit) (t : String) (nodes : List String)
    (v : Option ℚ) (p : Option Params) :
    (add_component c t nodes v p).2.version = c.version + 1 := rfl

theorem add_component_counter (c : Circuit) (t : String) (nodes : List String)
    (v : Option ℚ) (p : Option Params) :
    counterOf (add_component c t nodes v p).2 (strUpper t)
      = counterOf c (strUpper t) + 1 := by
  simp [add_component, counterOf, alookup_aset_self]

theorem remove_component_version (c : Circuit) (n : String) :
    (remove_component c n).2.version
      = (if (remove_component c n).1 then c.version + 1 else c.version) := by
  unfold remove_component
  cases removeFirst c.components n <;> rfl

theorem foldl_adds_version (specs : List CompSpec) : ∀ c : Circuit,
    (specs.foldl
      (fun cc spec => (add_component cc spec.type spec.nodes spec.value spec.params).2)
      c).version = c.version + specs.length := by
  induction specs with
  | nil => intro c; rfl
  | cons s rest ih =>
      intro c
      rw [List.foldl_cons, ih, add_component_version, List.length_cons]
      omega

theorem update_components_version (c : Circuit) (specs : List CompSpec) :
    (update_components c specs).version = c.version + 1 + specs.length := by
  unfold update_components
  rw [foldl_adds_version]

theorem applyOp_version_mono (c : Circuit) (op : Op) :
    c.version ≤ (applyOp c op).version := by
  cases op with
  | add t nodes v p => rw [applyOp, add_component_version]; omega
  | remove n =>
      rw [applyOp, remove_component_version]
      split <;> omega
  | update specs => rw [applyOp, update_components_version]; omega
  | rename s => exact Nat.le_refl _

theorem runOps_version_mono (ops : List Op) : ∀ c : Circuit,
    c.version ≤ (runOps c ops).version := by
  induction ops with
  | nil => intro c; exact Nat.le_refl _
  | cons op rest ih =>
      intro c
      exact Nat.le_trans (applyOp_version_mono c op) (ih (applyOp c op))

/-- C1 counterexample: calling add_component with an empty node list is
not rejected; at a concrete input the call commits the component,
advances the R counter and increments the version, so the circuit does
not stay unchanged as the claim requires. -/
theorem c1_counterexample :
    (add_component (Circuit.new 1 none) "R" [] none none).2.version = 2 ∧
    (add_component (Circuit.new 1 none) "R" [] none none).2.components ≠ [] ∧
    counterOf (add_component (Circuit.new 1 none) "R" [] none none).2 "R" = 2 := by
  decide

/-- C1 (amended): add_component performs no validation at all: every
call, whatever the node list and whether or not a value is supplied,
appends exactly the created component, increments the version by one,
leaves the history untouched and advances the per-type counter by one. -/
theorem c1_add_component_never_rejects :
    ∀ (c : Circuit) (t : String) (nodes : List String) (v : Option ℚ)
      (p : Option Params),
      (add_component c t nodes v p).2.components
          = c.components ++ [(add_component c t nodes v p).1] ∧
      (add_component c t nodes v p).2.version = c.version + 1 ∧
      (add_component c t nodes v p).2.history = c.history ∧
      (add_component c t nodes v p).1.nodes = nodes ∧
      (add_component c t nodes v p).1.value = v ∧
      counterOf (add_component c t nodes v p).2 (strUpper t)
          = counterOf c (strUpper t) + 1 :=
  fun c t nodes v p =>
    ⟨rfl, rfl, rfl, rfl, rfl, add_component_counter c t nodes v p⟩

/-- C3 counterexample: removing a name that does not exist returns the
not-found outcome and leaves the version unchanged, so the version does
not increase by exactly 1 on this remove_component call. -/
theorem c3_counterexample :
    (remove_component (Circuit.new 1 none) "R1").1 = false ∧
    ¬((remove_component (Circuit.new 1 none) "R1").2.version
        = (Circuit.new 1 none).version + 1) := by
  decide

/-- C3 (amended): the version is non-decreasing across any operation
sequence, increases by exactly 1 per add_component call and per
successful remove_component call (an unsuccessful removal leaves it
unchanged), and increases by exactly 1 plus the number of new components
per update_components call. -/
theorem c3_version_monotonicity :
    (∀ (c : Circuit) (t : String) (nodes : List String) (v : Option ℚ)
       (p : Option Params),
       (add_component c t nodes v p).2.version = c.version + 1) ∧
    (∀ (c : Circuit) (n : String),
       (remove_component c n).2.version
         = (if (remove_component c n).1 then c.version + 1 else c.version)) ∧
    (∀ (c : Circuit) (specs : List CompSpec),
       (update_components c specs).version = c.version + 1 + specs.length) ∧
    (∀ (c : Circuit) (ops : List Op), c.version ≤ (runOps c ops).version) :=
  ⟨add_component_version, remove_component_version,
   update_components_version, fun c ops => runOps_version_mono ops c⟩

/-- C4: the persistence round trip does not reconstruct an equivalent
circuit.  Reloading savedExampleA (version 2, one component) yields
version 3, because load assigns the stored version and then re-adds
every component through add_component, which bumps the version again;
reloading savedExampleB (whose only component is named R2 after a
removal) regenerates the name R1 from fresh counters. -/
theorem c4_load_does_not_roundtrip :
    savedExampleA.version = 2 ∧
    (loadCircuitData 1 (to_dict savedExampleA)).version = 3 ∧
    savedExampleB.version = 4 ∧
    (loadCircuitData 2 (to_dict savedExampleB)).version = 5 ∧
    savedExampleB.components.map Component.name = ["R2"] ∧
    (loadCircuitData 2 (to_dict savedExampleB)).components.map Component.name
      = ["R1"] := by
  decide

/-- C7: node normalization maps exactly the identifiers whose lowercase
form is 0, gnd or ground to the canonical ground reference, and passes
every other identifier through unchanged. -/
theorem c7_ground_aliasing (node : String) :
    normalize_node node =
      (if strLower node = "0" ∨ strLower node = "gnd" ∨ strLower node = "ground"
       then NodeRef.gnd else NodeRef.plain node) := by
  by_cases h0 : node = ""
  · subst h0; decide
  · simp [normalize_node, h0]

/-- C10: add_component accepts any component type string: for a type
whose uppercased form is not yet known to the counters, the component is
committed with a fresh counter, the generated name is the type followed
by 1, and the stored next counter becomes 2. -/
theorem c10_arbitrary_type (c : Circuit) (t : String) (nodes : List String)
    (v : Option ℚ) (p : Option Params)
    (h : alookup c.next_ids (strUpper t) = none) :
    (add_component c t nodes v p).1.type = strUpper t ∧
    (add_component c t nodes v p).1.name = strUpper t ++ "1" ∧
    (add_component c t nodes v p).2.components
        = c.components ++ [(add_component c t nodes v p).1] ∧
    alookup (add_component c t nodes v p).2.next_ids (strUpper t) = some 2 := by
  refine ⟨rfl, ?_, rfl, ?_⟩
  · simp [add_component, h]
    rfl
  · simp [add_component, h, alookup_aset_self]

/-- C10 witness: the unknown type Z on a fresh circuit is accepted and
named Z1. -/
theorem c10_witness :
    alookup (Circuit.new 1 none).next_ids (strUpper "Z") = none ∧
    (add_component (Circuit.new 1 none) "Z" ["a", "b"] none none).1.name
      = strUpper "Z" ++ "1" :=
  ⟨by decide,
   (c10_arbitrary_type (Circuit.new 1 none) "Z" ["a", "b"] none none
     (by decide)).2.1⟩

theorem toDigitsCore_eq_digits : ∀ (f n : ℕ) (acc : List Char), 0 < n → n < f →
    Nat.toDigitsCore 10 f n acc
      = ((Nat.digits 10 n).map Nat.digitChar).reverse ++ acc := by
  intro f
  induction f with
  | zero => intro n acc h1 h2; omega
  | succ f ih =>
      intro n acc hn hf
      rw [Nat.toDigitsCore]
      by_cases hdiv : n / 10 = 0
      · rw [Nat.digits_def' (by norm_num : (1:ℕ) < 10) hn, hdiv]
        simp [hdiv]
      · have h1 : 0 < n / 10 := Nat.pos_of_ne_zero hdiv
        have h2 : n / 10 < f := by
          have hlt : n / 10 < n := Nat.div_lt_self hn (by norm_num)
          omega
        simp only [hdiv, if_false]
        rw [ih (n / 10) _ h1 h2]
        rw [Nat.digits_def' (by norm_num : (1:ℕ) < 10) hn]
        simp

theorem repr_data (n : ℕ) :
    (Nat.repr n).data
      = if n = 0 then ['0'] else ((Nat.digits 10 n).map Nat.digitChar).reverse := by
  by_cases h : n = 0
  · subst h; rfl
  · have hn : 0 < n := Nat.pos_of_ne_zero h
    have e : Nat.repr n = (Nat.toDigitsCore 10 (n+1) n []).asString := rfl
    rw [e, toDigitsCore_eq_digits (n+1) n [] hn (Nat.lt_succ_self n)]
    simp [h]
    rfl

theorem map_digitChar_inj : ∀ (l1 l2 : List ℕ),
    (∀ x ∈ l1, x < 10) → (∀ x ∈ l2, x < 10) →
    l1.map Nat.digitChar = l2.map Nat.digitChar → l1 = l2 := by
  have key : ∀ a < 10, ∀ b < 10, Nat.digitChar a = Nat.digitChar b → a = b := by
    decide
  intro l1
  induction l1 with
  | nil =>
      intro l2 _ _ h
      cases l2 with
      | nil => rfl
      | cons b t => simp at h
  | cons a t ih =>
      intro l2 h1 h2 h
      cases l2 with
      | nil => simp at h
      | cons b t2 =>
          simp only [List.map_cons, List.cons.injEq] at h
          have ha : a = b := key a (h1 a (by simp)) b (h2 b (by simp)) h.1
          have ht : t = t2 := ih t2 (fun x hx => h1 x (by simp [hx]))
            (fun x hx => h2 x (by simp [hx])) h.2
          rw [ha, ht]

theorem natRepr_injective (m n : ℕ) (h : Nat.repr m = Nat.repr n) : m = n := by
  have hd := congrArg String.data h
  rw [repr_data, repr_data] at hd
  have digitsLt : ∀ k, ∀ x ∈ Nat.digits 10 k, x < 10 :=
    fun k x hx => Nat.digits_lt_base (by norm_num) hx
  by_cases hm : m = 0 <;> by_cases hn : n = 0
  · rw [hm, hn]
  · exfalso
    simp only [hm, hn, if_true, if_false] at hd
    have hmap : (Nat.digits 10 n).map Nat.digitChar = ['0'] := by
      have := congrArg List.reverse hd
      simpa using this.symm
    have hdig : Nat.digits 10 n = [0] := by
      apply map_digitChar_inj _ _ (digitsLt n) (by decide)
      rw [hmap]; rfl
    have h0 := Nat.ofDigits_digits 10 n
    rw [hdig] at h0
    simp [Nat.ofDigits] at h0
    omega
  · exfalso
    simp only [hm, hn, if_true, if_false] at hd
    have hmap : (Nat.digits 10 m).map Nat.digitChar = ['0'] := by
      have := congrArg List.reverse hd
      simpa using this
    have hdig : Nat.digits 10 m = [0] := by
      apply map_digitChar_inj _ _ (digitsLt m) (by decide)
      rw [hmap]; rfl
    have h0 := Nat.ofDigits_digits 10 m
    rw [hdig] at h0
    simp [Nat.ofDigits] at h0
    omega
  · simp only [hm, hn, if_false] at hd
    have hmap := List.reverse_injective hd
    have hdig := map_digitChar_inj _ _ (digitsLt m) (digitsLt n) hmap
    have h1 := Nat.ofDigits_digits 10 m
    have h2 := Nat.ofDigits_digits 10 n
    rw [← h1, ← h2, hdig]

theorem append_left_cancel_str (t a b : String) (h : t ++ a = t ++ b) : a = b := by
  have hd := congrArg String.data h
  rw [String.data_append, String.data_append] at hd
  exact String.ext (List.append_cancel_left hd)

theorem tag_singleton (t : String) (h : t ∈ tagList) : ∃ c, t.data = [c] := by
  fin_cases h <;> exact ⟨_, rfl⟩

theorem tag_append_ne (t1 t2 : String) (h1 : t1 ∈ tagList) (h2 : t2 ∈ tagList)
    (hne : t1 ≠ t2) (a b : String) : t1 ++ a ≠ t2 ++ b := by
  intro h
  obtain ⟨c1, hc1⟩ := tag_singleton t1 h1
  obtain ⟨c2, hc2⟩ := tag_singleton t2 h2
  have hd := congrArg String.data h
  rw [String.data_append, String.data_append, hc1, hc2] at hd
  simp only [List.cons_append, List.nil_append, List.cons.injEq] at hd
  exact hne (String.ext (by rw [hc1, hc2, hd.1]))

theorem alookup_aset_cases {α : Type} (l : List (String × α)) (k : String) (v : α)
    (t : String) (m : α) (h : alookup (aset l k v) t = some m) :
    (t = k ∧ m = v) ∨ alookup l t = some m := by
  by_cases ht : t = k
  · subst ht
    rw [alookup_aset_self] at h
    exact Or.inl ⟨rfl, (Option.some.inj h).symm⟩
  · rw [alookup_aset_ne l k t v ht] at h
    exact Or.inr h

theorem alookup_mem {α : Type} : ∀ (l : List (String × α)) (t : String) (m : α),
    alookup l t = some m → (t, m) ∈ l := by
  intro l
  induction l with
  | nil => intro t m h; simp [alookup] at h
  | cons p rest ih =>
      intro t m h
      obtain ⟨k', v'⟩ := p
      by_cases hk : k' = t
      · subst hk
        simp [alookup] at h
        simp [h]
      · simp [alookup, hk] at h
        exact List.mem_cons_of_mem _ (ih t m h)

theorem remove_component_next_ids (c : Circuit) (n : String) :
    (remove_component c n).2.next_ids = c.next_ids := by
  unfold remove_component
  cases removeFirst c.components n <;> rfl

theorem counterOf_remove (c : Circuit) (n : String) (t : String) :
    counterOf (remove_component c n).2 t = counterOf c t := by
  unfold counterOf
  rw [remove_component_next_ids]

theorem counterOf_add_le (c : Circuit) (t' : String) (nodes : List String)
    (v : Option ℚ) (p : Option Params) (t : String) :
    counterOf c t ≤ counterOf (add_component c t' nodes v p).2 t := by
  by_cases h : t = strUpper t'
  · subst h
    rw [add_component_counter]
    omega
  · have e : counterOf (add_component c t' nodes v p).2 t = counterOf c t := by
      unfold counterOf add_component
      rw [alookup_aset_ne _ _ _ _ h]
    omega

theorem counterOf_foldl_adds_le (specs : List CompSpec) : ∀ (c : Circuit) (t : String),
    counterOf c t
      ≤ counterOf
          (specs.foldl
            (fun cc spec =>
              (add_component cc spec.type spec.nodes spec.value spec.params).2) c)
          t := by
  induction specs with
  | nil => intro c t; exact Nat.le_refl _
  | cons s rest ih =>
      intro c t
      rw [List.foldl_cons]
      exact Nat.le_trans (counterOf_add_le c s.type s.nodes s.value s.params t)
        (ih _ t)

theorem counterOf_applyOp_le (c : Circuit) (op : Op) (t : String) :
    counterOf c t ≤ counterOf (applyOp c op) t := by
  cases op with
  | add t' nodes v p => exact counterOf_add_le c t' nodes v p t
  | remove n => rw [applyOp, counterOf_remove]
  | update specs =>
      simp only [applyOp, update_components]
      exact counterOf_foldl_adds_le specs
        { c with
            history := c.history ++ [⟨c.version, c.components⟩],
            version := c.version + 1,
            components := [] } t
  | rename s => exact Nat.le_refl _

theorem counterOf_runOps_le (ops : List Op) : ∀ (c : Circuit) (t : String),
    counterOf c t ≤ counterOf (runOps c ops) t := by
  induction ops with
  | nil => intro c t; exact Nat.le_refl _
  | cons op rest ih =>
      intro c t
      exact Nat.le_trans (counterOf_applyOp_le c op t) (ih (applyOp c op) t)

theorem counterOf_pos (c : Circuit) (hc : CtrInv c) (t : String) :
    1 ≤ counterOf c t := by
  unfold counterOf
  cases h : alookup c.next_ids t with
  | none => exact Nat.le_refl _
  | some m => exact hc t m h

theorem ctrInv_add (c : Circuit) (t : String) (nodes : List String)
    (v : Option ℚ) (p : Option Params) (hc : CtrInv c) :
    CtrInv (add_component c t nodes v p).2 := by
  intro s m hsm
  have e : (add_component c t nodes v p).2.next_ids
      = aset c.next_ids (strUpper t) ((alookup c.next_ids (strUpper t)).getD 1 + 1) := rfl
  rw [e] at hsm
  rcases alookup_aset_cases _ _ _ _ _ hsm with ⟨_, hm⟩ | hlook
  · omega
  · exact hc s m hlook

theorem ctrInv_foldl_adds (specs : List CompSpec) : ∀ (c : Circuit), CtrInv c →
    CtrInv
      (specs.foldl
        (fun cc spec =>
          (add_component cc spec.type spec.nodes spec.value spec.params).2) c) := by
  induction specs with
  | nil => intro c hc; exact hc
  | cons s rest ih =>
      intro c hc
      rw [List.foldl_cons]
      exact ih _ (ctrInv_add c s.type s.nodes s.value s.params hc)

theorem ctrInv_applyOp (c : Circuit) (op : Op) (hc : CtrInv c) :
    CtrInv (applyOp c op) := by
  cases op with
  | add t nodes v p => exact ctrInv_add c t nodes v p hc
  | remove n =>
      intro s m hsm
      simp only [applyOp] at hsm
      rw [remove_component_next_ids] at hsm
      exact hc s m hsm
  | update specs =>
      simp only [applyOp, update_components]
      exact ctrInv_foldl_adds specs _ hc
  | rename s => exact hc

theorem removeFirst_subset : ∀ (l : List Component) (n : String) (l' : List Component),
    removeFirst l n = some l' → ∀ x ∈ l', x ∈ l := by
  intro l
  induction l with
  | nil => intro n l' h; simp [removeFirst] at h
  | cons comp rest ih =>
      intro n l' h x hx
      unfold removeFirst at h
      by_cases hc : comp.name = n
      · simp [hc] at h
        subst h
        exact List.mem_cons_of_mem _ hx
      · simp [hc] at h
        obtain ⟨l'', h1, h2⟩ := h
        subst h2
        rcases List.mem_cons.mp hx with hx1 | hx2
        · simp [hx1]
        · exact List.mem_cons_of_mem _ (ih n l'' h1 x hx2)

theorem removeFirst_found : ∀ (l : List Component) (n : String) (l' : List Component),
    removeFirst l n = some l' → ∃ comp ∈ l, comp.name = n := by
  intro l
  induction l with
  | nil => intro n l' h; simp [removeFirst] at h
  | cons comp rest ih =>
      intro n l' h
      unfold removeFirst at h
      by_cases hc : comp.name = n
      · exact ⟨comp, by simp, hc⟩
      · simp [hc] at h
        obtain ⟨l'', h1, _⟩ := h
        obtain ⟨comp', hm, hn⟩ := ih n l'' h1
        exact ⟨comp', List.mem_cons_of_mem _ hm, hn⟩

theorem goodName_mono (c c' : Circuit) (nm : String) (h : GoodName c nm)
    (hm : ∀ s, counterOf c s ≤ counterOf c' s) : GoodName c' nm := by
  obtain ⟨t, k, h1, h2, h3, h4⟩ := h
  exact ⟨t, k, h1, h2, h3, lt_of_lt_of_le h4 (hm t)⟩

theorem circuitInv_add (c : Circuit) (t : String) (nodes : List String)
    (v : Option ℚ) (p : Option Params) (htag : strUpper t ∈ tagList)
    (h : CircuitInv c) : CircuitInv (add_component c t nodes v p).2 := by
  obtain ⟨hc, hn⟩ := h
  refine ⟨ctrInv_add c t nodes v p hc, ?_⟩
  intro comp hmem
  have hcs : (add_component c t nodes v p).2.components
      = c.components ++ [(add_component c t nodes v p).1] := rfl
  rw [hcs] at hmem
  rcases List.mem_append.mp hmem with hold | hnew
  · exact goodName_mono c _ _ (hn comp hold)
      (fun s => counterOf_add_le c t nodes v p s)
  · have hcomp : comp = (add_component c t nodes v p).1 := by simpa using hnew
    subst hcomp
    refine ⟨strUpper t, counterOf c (strUpper t), htag, rfl,
      counterOf_pos c hc _, ?_⟩
    rw [add_component_counter]
    omega

theorem circuitInv_remove (c : Circuit) (n : String) (h : CircuitInv c) :
    CircuitInv (remove_component c n).2 := by
  unfold remove_component
  cases hr : removeFirst c.components n with
  | none => exact h
  | some l' =>
      obtain ⟨hc, hn⟩ := h
      refine ⟨hc, ?_⟩
      intro comp hmem
      exact hn comp (removeFirst_subset _ _ _ hr comp hmem)

theorem circuitInv_applyOp (c : Circuit) (op : Op)
    (hop : opAddRemoveTagged op = true) (h : CircuitInv c) :
    CircuitInv (applyOp c op) := by
  cases op with
  | add t nodes v p =>
      have htag : strUpper t ∈ tagList := by
        simpa [opAddRemoveTagged] using hop
      exact circuitInv_add c t nodes v p htag h
  | remove n => exact circuitInv_remove c n h
  | update specs => simp [opAddRemoveTagged] at hop
  | rename s => simp [opAddRemoveTagged] at hop

theorem circuitInv_runOps : ∀ (ops : List Op) (c : Circuit),
    (∀ op ∈ ops, opAddRemoveTagged op = true) → CircuitInv c →
    CircuitInv (runOps c ops) := by
  intro ops
  induction ops with
  | nil => intro c _ h; exact h
  | cons op rest ih =>
      intro c hops h
      exact ih (applyOp c op) (fun o ho => hops o (by simp [ho]))
        (circuitInv_applyOp c op (hops op (by simp)) h)

theorem circuitInv_new (cid : ℕ) (nm : Option String) :
    CircuitInv (Circuit.new cid nm) := by
  constructor
  · intro t m h
    have hmem := alookup_mem _ t m h
    fin_cases hmem <;> omega
  · intro comp hmem
    simp [Circuit.new] at hmem

theorem counterOf_new (cid : ℕ) (nm : Option String) (t : String) :
    counterOf (Circuit.new cid nm) t = 1 := by
  unfold counterOf
  cases h : alookup (Circuit.new cid nm).next_ids t with
  | none => rfl
  | some m =>
      have hmem := alookup_mem _ t m h
      simp only [Circuit.new] at hmem
      fin_cases hmem <;> rfl

theorem range_names_cons (len : ℕ) (t : String) (k : ℕ) :
    (List.range (len + 1)).map (fun i => t ++ Nat.repr (k + i))
      = (t ++ Nat.repr k)
        :: (List.range len).map (fun i => t ++ Nat.repr (k + 1 + i)) := by
  rw [List.range_succ_eq_map]
  simp only [List.map_cons, List.map_map, Nat.add_zero]
  congr 1
  apply List.map_congr_left
  intro i _
  simp only [Function.comp_apply]
  congr 2
  omega

theorem addMany_names : ∀ (js : List AddArgs) (c : Circuit) (t : String),
    strUpper t = t →
    (addMany c t js).components.map Component.name
      = c.components.map Component.name
        ++ (List.range js.length).map (fun i => t ++ Nat.repr (counterOf c t + i)) := by
  intro js
  induction js with
  | nil => intro c t ht; simp [addMany]
  | cons a js ih =>
      intro c t ht
      have step : addMany c t (a :: js)
          = addMany (add_component c t a.nodes a.value a.params).2 t js := rfl
      rw [step, ih _ t ht]
      have hcomps :
          (add_component c t a.nodes a.value a.params).2.components.map Component.name
            = c.components.map Component.name ++ [t ++ Nat.repr (counterOf c t)] := by
        have e : (add_component c t a.nodes a.value a.params).2.components
            = c.components ++ [(add_component c t a.nodes a.value a.params).1] := rfl
        rw [e, List.map_append]
        simp [add_component, counterOf, ht]
      have hctr : counterOf (add_component c t a.nodes a.value a.params).2 t
          = counterOf c t + 1 := by
        have h2 := add_component_counter c t a.nodes a.value a.params
        rwa [ht] at h2
      rw [hcomps, hctr, List.length_cons, range_names_cons]
      simp

/-- C2 counterexample: the claim quantifies over all add and remove
sequences, but component types outside the fixed tag set make generated
names collide: adding a component of type R1 to a fresh circuit
generates the name R11; after removing it, ten additions of type R are
followed by an eleventh whose generated name is again R11, so a later
addition does reuse the name of a removed component. -/
theorem c2_counterexample :
    (remove_component
        (add_component (Circuit.new 1 none) "R1" ["a", "b"] none none).2
        "R11").1 = true ∧
    (add_component
        (runOps
          (remove_component
            (add_component (Circuit.new 1 none) "R1" ["a", "b"] none none).2
            "R11").2
          (List.replicate 10 (Op.add "R" ["a", "b"] none none)))
        "R" ["a", "b"] none none).1.name = "R11" := by
  decide

/-- C2 (amended): on a freshly constructed circuit, N additions of a
fixed (uppercase) type T generate the names T1 to TN in insertion
order; and, provided every component type used is drawn from the fixed
tag set R, C, L, V, I, D, Q, M, X, U, no addition made after a
successful removal ever regenerates the removed name, because per-type
counters are never decremented or reset by removal. -/
theorem c2_generated_names_and_no_reuse :
    (∀ (cid : ℕ) (nm0 : Option String) (t : String) (js : List AddArgs),
       strUpper t = t →
       (addMany (Circuit.new cid nm0) t js).components.map Component.name
         = (List.range js.length).map (fun i => t ++ Nat.repr (i + 1))) ∧
    (∀ (cid : ℕ) (nm0 : Option String) (ops1 ops2 : List Op) (nm t : String)
       (nodes : List String) (v : Option ℚ) (p : Option Params),
       (∀ op ∈ ops1, opAddRemoveTagged op = true) →
       (∀ op ∈ ops2, opAddRemoveTagged op = true) →
       strUpper t ∈ tagList →
       (remove_component (runOps (Circuit.new cid nm0) ops1) nm).1 = true →
       (add_component
          (runOps (remove_component (runOps (Circuit.new cid nm0) ops1) nm).2 ops2)
          t nodes v p).1.name ≠ nm) := by
  constructor
  · intro cid nm0 t js ht
    rw [addMany_names js _ t ht]
    have hc : (Circuit.new cid nm0).components = [] := rfl
    rw [hc]
    simp only [counterOf_new, List.map_nil, List.nil_append]
    apply List.map_congr_left
    intro i _
    congr 2
    omega
  · intro cid nm0 ops1 ops2 nm t nodes v p h1 h2 ht hrem
    have hinv : CircuitInv (runOps (Circuit.new cid nm0) ops1) :=
      circuitInv_runOps ops1 _ h1 (circuitInv_new cid nm0)
    obtain ⟨l', hl'⟩ :
        ∃ l', removeFirst (runOps (Circuit.new cid nm0) ops1).components nm
                = some l' := by
      rcases hfound :
          removeFirst (runOps (Circuit.new cid nm0) ops1).components nm with _ | l'
      · exfalso
        unfold remove_component at hrem
        rw [hfound] at hrem
        simp at hrem
      · exact ⟨l', rfl⟩
    obtain ⟨comp, hcm, hcn⟩ := removeFirst_found _ _ _ hl'
    have hgood : GoodName (runOps (Circuit.new cid nm0) ops1) nm := by
      rw [← hcn]
      exact hinv.2 comp hcm
    obtain ⟨t0, k0, ht0, hnm, hk1, hk2⟩ := hgood
    subst hnm
    have hmono : counterOf (runOps (Circuit.new cid nm0) ops1) t0
        ≤ counterOf
            (runOps
              (remove_component (runOps (Circuit.new cid nm0) ops1)
                (t0 ++ Nat.repr k0)).2 ops2)
            t0 := by
      have e := counterOf_remove (runOps (Circuit.new cid nm0) ops1)
        (t0 ++ Nat.repr k0) t0
      calc counterOf (runOps (Circuit.new cid nm0) ops1) t0
          = counterOf
              (remove_component (runOps (Circuit.new cid nm0) ops1)
                (t0 ++ Nat.repr k0)).2 t0 := e.symm
        _ ≤ _ := counterOf_runOps_le ops2 _ t0
    have hname : (add_component
        (runOps
          (remove_component (runOps (Circuit.new cid nm0) ops1)
            (t0 ++ Nat.repr k0)).2 ops2)
        t nodes v p).1.name
        = strUpper t
            ++ Nat.repr
              (counterOf
                (runOps
                  (remove_component (runOps (Circuit.new cid nm0) ops1)
                    (t0 ++ Nat.repr k0)).2 ops2)
                (strUpper t)) := rfl
    rw [hname]
    by_cases hT : strUpper t = t0
    · rw [hT]
      intro heq
      have hrepr := append_left_cancel_str _ _ _ heq
      have hk := natRepr_injective _ _ hrepr
      omega
    · exact tag_append_ne _ _ ht ht0 hT _ _

/-- C2 witness: two R additions on a fresh circuit are named R1 and R2,
and with tag-set types an addition made after removing R1 does not
regenerate the name R1. -/
theorem c2_witness :
    (addMany (Circuit.new 1 none) "R"
        [⟨["a", "b"], none, none⟩, ⟨["b", "c"], none, none⟩]).components.map
        Component.name
      = (List.range 2).map (fun i => "R" ++ Nat.repr (i + 1)) ∧
    (add_component
        (runOps
          (remove_component
            (runOps (Circuit.new 1 none) [Op.add "R" ["a", "b"] none none]) "R1").2
          [])
        "R" ["c", "d"] none none).1.name ≠ "R1" :=
  ⟨c2_generated_names_and_no_reuse.1 1 none "R" _ (by decide),
   c2_generated_names_and_no_reuse.2 1 none [Op.add "R" ["a", "b"] none none] []
     "R1" "R" ["c", "d"] none none (by decide) (by decide) (by decide) (by decide)⟩

theorem translateComponent_error (d : List PVal) (comp : Component) (e : SimError)
    (h : translateComponent d comp = .error e) : e = .componentError comp.name := by
  unfold translateComponent at h
  cases htc : translateComponentCore d comp with
  | none => rw [htc] at h; simpa using h.symm
  | some r => rw [htc] at h; simp at h

theorem translateList_error : ∀ (comps : List Component) (d : List PVal) (e : SimError),
    translateList d comps = .error e → ∃ nm, e = .componentError nm := by
  intro comps
  induction comps with
  | nil => intro d e h; simp [translateList] at h
  | cons comp rest ih =>
      intro d e h
      unfold translateList at h
      cases htc : translateComponent d comp with
      | error e1 =>
          rw [htc] at h
          simp at h
          subst h
          exact ⟨comp.name, translateComponent_error d comp e1 htc⟩
      | ok pr =>
          obtain ⟨instrs, declared1⟩ := pr
          rw [htc] at h
          simp at h
          cases htl : translateList declared1 rest with
          | error e2 =>
              rw [htl] at h
              simp at h
              subst h
              exact ih declared1 e2 htl
          | ok pr2 =>
              obtain ⟨i2, d2⟩ := pr2
              rw [htl] at h
              simp at h

theorem translateAll_error (title : String) (comps : List Component) (e : SimError)
    (h : translateAll title comps = .error e) : ∃ nm, e = .componentError nm := by
  unfold translateAll at h
  cases htl : translateList [] comps with
  | error e2 =>
      rw [htl] at h
      simp at h
      subst h
      exact translateList_error comps [] e2 htl
  | ok r => rw [htl] at h; simp at h

/-- C9: simulate never writes the circuit: whatever the analysis kind,
the parameters, the solver behavior and whether the call returns a
result or an error, the components, version, history and per-type
counters after the call equal their values before it. -/
theorem c9_simulate_read_only (c : Circuit) (analysis : String)
    (sp : Option Params) (s : Solver) :
    (simulate c analysis sp s).circuit = c ∧
    (simulate c analysis sp s).circuit.components = c.components ∧
    (simulate c analysis sp s).circuit.version = c.version ∧
    (simulate c analysis sp s).circuit.history = c.history ∧
    (simulate c analysis sp s).circuit.next_ids = c.next_ids := by
  have h : (simulate c analysis sp s).circuit = c := by
    unfold simulate
    cases translateAll c.name c.components <;> rfl
  rw [h]
  exact ⟨rfl, rfl, rfl, rfl, rfl⟩

/-- C6: a U component with uvx_type opamp and at least three nodes
translates, with no error, to exactly two one-gigaohm resistors from
the in-plus and in-minus nodes to the two synthesized internal nodes
followed by one voltage-controlled voltage source from the internal
node pair to the output node, whose gain is the gain parameter
defaulting to one million. -/
theorem c6_opamp_translation (declared : List PVal) (comp : Component) (p : Params)
    (n1 n2 n3 : String) (rest : List String)
    (htype : comp.type = "U") (hp : comp.params = some p)
    (huvx : alookup p "uvx_type" = some (.str "opamp"))
    (hnodes : comp.nodes = n1 :: n2 :: n3 :: rest) :
    translateComponent declared comp
      = .ok ([.resistor (comp.name ++ "_in_p") (normalize_node n3)
               (.plain ("int_" ++ comp.name ++ "_1")) 1000000000,
             .resistor (comp.name ++ "_in_n") (normalize_node n2)
               (.plain ("int_" ++ comp.name ++ "_2")) 1000000000,
             .vcvs comp.name (normalize_node n1) .gnd
               (.plain ("int_" ++ comp.name ++ "_1"))
               (.plain ("int_" ++ comp.name ++ "_2"))
               ((alookup p "gain").getD (.num 1000000))], declared) := by
  unfold translateComponent translateComponentCore
  simp [htype, hp, hnodes, huvx]

/-- C6 witness: the concrete opamp component of scenario 5. -/
theorem c6_witness :
    translateComponent []
        ⟨"U1", "U", ["out", "in-", "in+"], none,
         some [("uvx_type", PVal.str "opamp")]⟩
      = .ok ([.resistor ("U1" ++ "_in_p") (normalize_node "in+")
               (.plain ("int_" ++ "U1" ++ "_1")) 1000000000,
             .resistor ("U1" ++ "_in_n") (normalize_node "in-")
               (.plain ("int_" ++ "U1" ++ "_2")) 1000000000,
             .vcvs "U1" (normalize_node "out") .gnd
               (.plain ("int_" ++ "U1" ++ "_1"))
               (.plain ("int_" ++ "U1" ++ "_2"))
               ((alookup [("uvx_type", PVal.str "opamp")] "gain").getD
                 (.num 1000000))], []) :=
  c6_opamp_translation [] _ [("uvx_type", PVal.str "opamp")] "out" "in-" "in+" []
    rfl rfl (by decide) rfl

/-- C5 counterexample: the per-node AC record uses the key phase, not
phase_degrees: at a concrete solver output the record keys are magnitude
and phase and phase_degrees is absent. -/
theorem c5_counterexample :
    (normalizeAcNodes [("1", [(1, 0)])]).map (fun q => q.2.map Prod.fst)
      = [["magnitude", "phase"]] ∧
    ∀ entry ∈ normalizeAcNodes [("1", [(1, 0)])],
      "phase_degrees" ∉ entry.2.map Prod.fst := by
  decide

/-- C5 (amended): in the AC result, every non-ground node of the solver
output maps to a record whose keys are magnitude and phase, the
magnitude entry holding the complex magnitudes and the phase entry the
atan2-in-degrees values of the solver values in order; nodes named 0 or
gnd are excluded; and the dispatcher builds the AC result from exactly
this normalization of the solver output. -/
theorem c5_ac_nodes_magnitude_phase :
    (∀ (ns : List (String × List (ℚ × ℚ))) (name : String) (vs : List (ℚ × ℚ)),
       (name, vs) ∈ ns → ¬(name = "0" ∨ name = "gnd") →
       (name,
         [("magnitude", vs.map (fun v => AcScalar.cabs v.1 v.2)),
          ("phase", vs.map (fun v => AcScalar.atan2Deg v.1 v.2))])
         ∈ normalizeAcNodes ns) ∧
    (∀ (ns : List (String × List (ℚ × ℚ))),
       ∀ entry ∈ normalizeAcNodes ns,
         entry.1 ≠ "0" ∧ entry.1 ≠ "gnd" ∧
         entry.2.map Prod.fst = ["magnitude", "phase"] ∧
         ∃ ws, (entry.1, ws) ∈ ns ∧ entry.2 = acEntry ws) ∧
    (∀ (nl : SpiceNetlist) (sp : Params) (s : Solver) (out : AcOutput),
       s.ac_analysis nl ((alookup sp "start_frequency").getD (.num 1))
           ((alookup sp "stop_frequency").getD (.num 1000000))
           ((alookup sp "points").getD (.num 10))
           ((alookup sp "variation").getD (.str "dec")) = .ok out →
       (dispatch nl "ac" sp s).2
         = .ok (.ac out.frequency (normalizeAcNodes out.nodes)
             (normalizeAcBranches out.branches))) := by
  refine ⟨?_, ?_, ?_⟩
  · intro ns name vs hmem hng
    unfold normalizeAcNodes
    apply List.mem_filterMap.mpr
    exact ⟨(name, vs), hmem, by simp [hng, acEntry]⟩
  · intro ns entry hentry
    unfold normalizeAcNodes at hentry
    obtain ⟨a, ha, hfa⟩ := List.mem_filterMap.mp hentry
    by_cases hg : a.1 = "0" ∨ a.1 = "gnd"
    · simp [hg] at hfa
    · simp only [hg, if_false] at hfa
      push_neg at hg
      obtain rfl : (a.1, acEntry a.2) = entry := Option.some.inj hfa
      exact ⟨hg.1, hg.2, rfl, a.2, Prod.mk.eta ▸ ha, rfl⟩
  · intro nl sp s out hout
    simp [dispatch, hout]

/-- C5 witness: concrete instances of the three amended parts, using
the concrete witness solver. -/
theorem c5_witness :
    ("1",
      [("magnitude", [(3, 4)].map (fun v : ℚ × ℚ => AcScalar.cabs v.1 v.2)),
       ("phase", [(3, 4)].map (fun v : ℚ × ℚ => AcScalar.atan2Deg v.1 v.2))])
      ∈ normalizeAcNodes [("1", [((3 : ℚ), (4 : ℚ))])] ∧
    (dispatch ⟨"t", []⟩ "ac" [] witnessSolver).2
      = .ok (.ac [1, 10]
          (normalizeAcNodes [("1", [(3, 4), (1, 0)]), ("0", [(0, 0), (0, 0)])])
          (normalizeAcBranches [("v1", [(1, 2), (2, 1)])])) :=
  ⟨c5_ac_nodes_magnitude_phase.1 [("1", [(3, 4)])] "1" [(3, 4)] (by decide)
     (by decide),
   c5_ac_nodes_magnitude_phase.2.2 ⟨"t", []⟩ [] witnessSolver
     ⟨[1, 10], [("1", [(3, 4), (1, 0)]), ("0", [(0, 0), (0, 0)])],
      [("v1", [(1, 2), (2, 1)])]⟩ rfl⟩

/-- C8: an unsupported analysis kind, a dc request missing source,
start, stop or step, or a transient request missing step_time or
end_time fails with a validation-category error, makes no solver
analysis invocation, and leaves the circuit unchanged. -/
theorem c8_validation_failures (c : Circuit) (analysis : String)
    (sp : Option Params) (s : Solver)
    (h : (strLower analysis ≠ "operating_point" ∧ strLower analysis ≠ "dc" ∧
          strLower analysis ≠ "ac" ∧ strLower analysis ≠ "transient")
        ∨ (strLower analysis = "dc" ∧
            (alookup (sp.getD []) "source" = none ∨
             alookup (sp.getD []) "start" = none ∨
             alookup (sp.getD []) "stop" = none ∨
             alookup (sp.getD []) "step" = none))
        ∨ (strLower analysis = "transient" ∧
            (alookup (sp.getD []) "step_time" = none ∨
             alookup (sp.getD []) "end_time" = none))) :
    (simulate c analysis sp s).circuit = c ∧
    (simulate c analysis sp s).calls = [] ∧
    ∃ e, (simulate c analysis sp s).result = .error e ∧
      isValidationErr e = true := by
  cases htr : translateAll c.name c.components with
  | error e =>
      obtain ⟨nm, hnm⟩ := translateAll_error _ _ _ htr
      refine ⟨?_, ?_, e, ?_, ?_⟩ <;> simp [simulate, htr, hnm, isValidationErr]
  | ok nl =>
      have hsuff : ∃ E, dispatch nl (strLower analysis) (sp.getD []) s
          = ([], .error E) ∧ isValidationErr E = true := by
        rcases h with ⟨h1, h2, h3, h4⟩ | ⟨hdc, hmiss⟩ | ⟨htrn, hmiss⟩
        · exact ⟨.simulationFailed (.unsupportedAnalysis (strLower analysis)),
            by simp [dispatch, h1, h2, h3, h4], rfl⟩
        · refine ⟨.simulationFailed .missingDcParams, ?_, rfl⟩
          rcases hmiss with hm | hm | hm | hm
          · simp [dispatch, hdc, hm]
          · cases hs : alookup (sp.getD []) "source" <;>
              simp [dispatch, hdc, hm, hs]
          · cases hs : alookup (sp.getD []) "source" <;>
              cases hst : alookup (sp.getD []) "start" <;>
              simp [dispatch, hdc, hm, hs, hst]
          · cases hs : alookup (sp.getD []) "source" <;>
              cases hst : alookup (sp.getD []) "start" <;>
              cases hsp : alookup (sp.getD []) "stop" <;>
              simp [dispatch, hdc, hm, hs, hst, hsp]
        · refine ⟨.simulationFailed .missingTransientParams, ?_, rfl⟩
          rcases hmiss with hm | hm
          · simp [dispatch, htrn, hm]
          · cases hst : alookup (sp.getD []) "step_time" <;>
              simp [dispatch, htrn, hm, hst]
      obtain ⟨E, hd, hE⟩ := hsuff
      refine ⟨?_, ?_, E, ?_, hE⟩ <;> simp [simulate, htr, hd]

/-- C8 witness: the unsupported kind noise on a fresh circuit fails
with a validation error, no solver call and unchanged state. -/
theorem c8_witness :
    (simulate (Circuit.new 1 none) "noise" none witnessSolver).circuit
        = Circuit.new 1 none ∧
    (simulate (Circuit.new 1 none) "noise" none witnessSolver).calls = [] ∧
    ∃ e, (simulate (Circuit.new 1 none) "noise" none witnessSolver).result
        = .error e ∧ isValidationErr e = true :=
  c8_validation_failures (Circuit.new 1 none) "noise" none witnessSolver
    (Or.inl (by decide))
